import Mathlib

/-!
Verification of `tkdm/autogallery.py` (an HTML image-gallery generator).

The Python program is shallowly embedded as follows.

* File names are Lean `String`s; `pyStem`/`pySuffix` mirror `pathlib.PurePath.stem`
  and `.suffix` (split at the last dot, provided it is neither the first nor the
  last character of the name).
* A `pathlib` path is modelled as its list of components after the normalisation
  `pathlib` performs while parsing (empty and `"."` segments are dropped, so
  `p / "."` is `p` itself); `pathName` is `PurePath.name` (last component, or the
  empty string when there is none).
* `PIL.Image.thumbnail` (the external image library the renderer delegates to) is
  modelled by `thumbSize`, a direct transcription of Pillow's
  `preserve_aspect_ratio`/`round_aspect` size computation, with IEEE doubles
  replaced by exact rationals (the computation involves a single division, a
  multiplication and floor/ceil, for which ℚ agrees with float64 on all realistic
  image dimensions); `int(height*1.5)` is exactly `3*height/2` rounded down.
* `render_subdir` is modelled by `renderSubdir`: it receives the directory's
  components, the thumbnail height, and the list of direct file entries that
  `os.walk` would yield; it returns the `RenderedSubdir` record plus the list of
  files written under the output root (`OutWrite`, path relative to the output
  root) and the diagnostics printed to stderr.  A source file is modelled by
  `SrcFile`: its base name, whether `Image.open`+`load` succeeds (`decodes`) and
  its pixel dimensions.
* `main` is modelled by `scanUnits` (the single `os.walk` iteration over the
  input root: nothing at all is yielded when the root is missing or not a
  directory, since `os.walk` swallows the `scandir` error), `runUnit` (one
  worker: the `outpath.mkdir` failure oracle `mkdirFails` models the per-unit
  `DirectoryIOFailure`, whose exception is stored in the future), and
  `collectResults` (the `for job in as_completed(jobs): res.append(job.result())`
  loop: `job.result()` re-raises the worker's exception, aborting the loop).
  The completion order of the pool is non-deterministic, so theorems quantify
  over an arbitrary permutation of the submitted jobs.  `runMain` returns
  `Except.ok page` when `index.html` is written with content `page` (process
  exit code 0) and `Except.error e` when the run dies with an uncaught
  exception (no `index.html`, non-zero exit).
* The HTML templates of `main` are transcribed literally (`dirDiv`, `buildPage`);
  `sorted(res, key=lambda d: d.name)` is a stable sort by code-point order on
  names, modelled by `mergeSort` with the ordinal comparison `ordLe`.
-/

/-- Index of the last `'.'` in a file name, as in Python's `str.rfind('.')`. -/
def lastDotIdx (name : List Char) : Option Nat :=
  (List.range name.length).reverse.find? (fun i => name.getD i ' ' == '.')

/-- Model of `pathlib.PurePath.suffix`: the final `".ext"` component of a file
name, or `[]` when the last dot is absent, leading, or trailing. -/
def pySuffix (name : List Char) : List Char :=
  match lastDotIdx name with
  | some i => if 0 < i ∧ i < name.length - 1 then name.drop i else []
  | none => []

/-- Model of `pathlib.PurePath.stem`: the file name without its `pySuffix`. -/
def pyStem (name : List Char) : List Char :=
  match lastDotIdx name with
  | some i => if 0 < i ∧ i < name.length - 1 then name.take i else name
  | none => name

/-- Test of `file.suffix.lower() in [".jpg", ".jpeg"]` (autogallery.py line 55). -/
def isNormalizedName (n : String) : Bool :=
  (pySuffix n.toList).map Char.toLower == ".jpg".toList ||
    (pySuffix n.toList).map Char.toLower == ".jpeg".toList

/-- Model of `pathlib` path joining `p / seg` for a single relative segment:
empty and `"."` segments are dropped during parsing, so they leave the path
unchanged. -/
def pathJoin (parts : List String) (seg : String) : List String :=
  if seg = "" ∨ seg = "." then parts else parts ++ [seg]

/-- Model of `pathlib.PurePath.name`: the final component, `""` if there is none. -/
def pathName (parts : List String) : String := parts.getLastD ""

/-- Lines 37-39 of autogallery.py: `dirname = Path(dirpath).name` followed by
`if not dirname: dirname = "."`. -/
def displayName (dirpath : List String) : String :=
  if pathName dirpath = "" then "." else pathName dirpath

/-- Pillow's `round_aspect(number, key)`:
`max(min(math.floor(number), math.ceil(number), key=key), 1)`; Python's binary
`min` with a key returns the first argument on ties. -/
def roundAspect (t : ℚ) (key : ℤ → ℚ) : ℤ :=
  max (if key ⌊t⌋ ≤ key ⌈t⌉ then ⌊t⌋ else ⌈t⌉) 1

/-- Size computed by `PIL.Image.thumbnail((x, y))` for a `w`×`h` image: the
identity when the image already fits the box, otherwise a shrink preserving the
aspect ratio `w/h`, the bound dimension set to the box and the free dimension
rounded to whichever of floor/ceil best preserves the aspect ratio (Pillow's
`preserve_aspect_ratio`). -/
def thumbSize (w h x y : ℕ) : ℕ × ℕ :=
  if x ≥ w ∧ y ≥ h then (w, h)
  else if (x : ℚ) / (y : ℚ) ≥ (w : ℚ) / (h : ℚ) then
    ((roundAspect ((y : ℚ) * ((w : ℚ) / (h : ℚ)))
        (fun n => |(w : ℚ) / (h : ℚ) - (n : ℚ) / (y : ℚ)|)).toNat, y)
  else
    (x, (roundAspect ((x : ℚ) / ((w : ℚ) / (h : ℚ)))
        (fun n => if n = 0 then 0 else |(w : ℚ) / (h : ℚ) - (x : ℚ) / (n : ℚ)|)).toNat)

/-- The bounding box `(int(height*1.5), height)` of autogallery.py line 64
(`1.5*height` is exact in float64 and `int` truncates, so the first component
is `3*height/2` rounded down). -/
def thumbBox (height : Nat) : Nat × Nat := (3 * height / 2, height)

/-- Dimensions of the thumbnail written for a `w`×`h` source image at
configured thumbnail height `height`: `img.thumbnail((int(height*1.5), height))`. -/
def pilThumbnail (w h height : Nat) : Nat × Nat :=
  thumbSize w h (thumbBox height).1 (thumbBox height).2

/-- The `RenderedImg` dataclass of autogallery.py. -/
structure RenderedImg where
  filename : String
  relimgpath : String
  relthumbpath : String
deriving DecidableEq

/-- The `RenderedSubdir` dataclass of autogallery.py. -/
structure RenderedSubdir where
  name : String
  images : List RenderedImg
deriving DecidableEq

/-- One direct file entry of a source directory: its base name, whether
`Image.open` + `img.load()` succeeds on it, and its pixel dimensions. -/
structure SrcFile where
  name : String
  decodes : Bool
  width : Nat
  height : Nat
deriving DecidableEq

/-- Provenance of one file written under the output root: a verbatim
`shutil.copyfile` of a source (line 57), a decoded and re-encoded save
(line 59), or a thumbnail of the given pixel size (line 65). -/
inductive Content where
  | copyOf (src : String)
  | reencodeOf (src : String)
  | thumbOf (src : String) (size : Nat × Nat)
deriving DecidableEq

/-- The source file a written output derives from. -/
def Content.srcName : Content → String
  | .copyOf n => n
  | .reencodeOf n => n
  | .thumbOf n _ => n

/-- Whether a written output is a full-size image (copy or re-encode), as
opposed to a thumbnail. -/
def Content.isFull : Content → Bool
  | .copyOf _ => true
  | .reencodeOf _ => true
  | .thumbOf _ _ => false

/-- One file written under the output root: its path relative to the output
root, and what was written there. -/
structure OutWrite where
  relpath : String
  content : Content
deriving DecidableEq

/-- Everything one `render_subdir` call produces: its return value, the files
it wrote (in write order), and the diagnostics it printed to stderr. -/
structure SubdirResult where
  result : RenderedSubdir
  writes : List OutWrite
  logs : List String
deriving DecidableEq

/-- Line 54: `fname = (file.stem+".jpg")`. -/
def outName (n : String) : String := (pyStem n.toList).asString ++ ".jpg"

/-- Line 61: `tname = (file.stem+".thumb.jpg")`. -/
def thumbName (n : String) : String := (pyStem n.toList).asString ++ ".thumb.jpg"

/-- The diagnostic `print(str(exc), file=stderr)` of line 52, printed when a
file fails to decode. -/
def decodeDiag (n : String) : String := "cannot identify image file " ++ n

/-- The body of the `for file in files` loop of `render_subdir` (lines 46-66)
for one file: on decode failure, one stderr line and nothing else; on success,
the full-size write (verbatim copy for `.jpg`/`.jpeg` sources, re-encode
otherwise), the thumbnail write, and one appended `RenderedImg` record. -/
def renderFile (dirname : String) (height : Nat) (f : SrcFile) :
    List OutWrite × List String × List RenderedImg :=
  if f.decodes then
    ([⟨dirname ++ "/" ++ outName f.name,
        if isNormalizedName f.name then Content.copyOf f.name else Content.reencodeOf f.name⟩,
      ⟨dirname ++ "/" ++ thumbName f.name,
        Content.thumbOf f.name (pilThumbnail f.width f.height height)⟩],
     [],
     [⟨f.name, dirname ++ "/" ++ outName f.name, dirname ++ "/" ++ thumbName f.name⟩])
  else
    ([], [decodeDiag f.name], [])

/-- The whole file loop of `render_subdir`: per-file writes, stderr lines and
records accumulated in file order. -/
def renderFiles (dirname : String) (height : Nat) :
    List SrcFile → List OutWrite × List String × List RenderedImg
  | [] => ([], [], [])
  | f :: fs =>
    ((renderFile dirname height f).1 ++ (renderFiles dirname height fs).1,
     (renderFile dirname height f).2.1 ++ (renderFiles dirname height fs).2.1,
     (renderFile dirname height f).2.2 ++ (renderFiles dirname height fs).2.2)

/-- `render_subdir(dirpath, outbase, height)` (lines 36-68): computes the
display name of the directory, processes every direct file entry, and returns
the `RenderedSubdir`; `files` is the list of direct file entries `os.walk`
yields for the directory, in discovery order. -/
def renderSubdir (dirpath : List String) (height : Nat) (files : List SrcFile) :
    SubdirResult :=
  ⟨⟨displayName dirpath, (renderFiles (displayName dirpath) height files).2.2⟩,
   (renderFiles (displayName dirpath) height files).1,
   (renderFiles (displayName dirpath) height files).2.1⟩

/-- Final content of the output tree after a sequence of writes: the last write
to a path wins (later writes are consulted first). -/
def applyWrites : List OutWrite → String → Option Content
  | [], _ => none
  | ow :: rest, p =>
    match applyWrites rest p with
    | some c => some c
    | none => if p = ow.relpath then some ow.content else none

/-- The input tree `main` is pointed at: whether the root exists and is a
directory, the direct files of the root, and the immediate subdirectories (in
the order the filesystem enumerates them) with their direct files. -/
structure InputFS where
  rootExists : Bool
  rootFiles : List SrcFile
  subdirs : List (String × List SrcFile)

/-- The single `os.walk(args.indir)` iteration of `main` (lines 109-114): one
unit for the root itself (submitted as `root/"."`) followed by one per
immediate subdirectory.  When the root does not exist or is not a directory,
`os.walk` reports nothing at all (its `scandir` error is swallowed because no
`onerror` is installed), so no units are produced. -/
def scanUnits (fs : InputFS) (indir : List String) :
    List (List String × List SrcFile) :=
  if fs.rootExists then
    (pathJoin indir ".", fs.rootFiles) :: fs.subdirs.map (fun d => (pathJoin indir d.1, d.2))
  else []

/-- One pool worker running `render_subdir` on a unit.  `mkdirFails` is the
failure oracle for `outpath.mkdir` (line 42, keyed by the unit's display name,
the name of the per-directory output folder): when it fires, the worker raises
and the future stores the exception (`Except.error`), carrying the offending
name. -/
def runUnit (mkdirFails : String → Bool) (height : Nat)
    (u : List String × List SrcFile) : Except String SubdirResult :=
  if mkdirFails (displayName u.1) then Except.error (displayName u.1)
  else Except.ok (renderSubdir u.1 height u.2)

/-- All futures submitted to the `ProcessPoolExecutor`: every scanned unit is
dispatched, regardless of any other unit's failure (the pool never cancels
queued work). -/
def jobsOf (fs : InputFS) (indir : List String) (mkdirFails : String → Bool)
    (height : Nat) : List (Except String SubdirResult) :=
  (scanUnits fs indir).map (runUnit mkdirFails height)

/-- The collection loop `for job in tqdm(as_completed(jobs)): res.append(job.result())`
(lines 116-117), applied to the futures in completion order: `job.result()`
re-raises a failed worker's exception, which propagates out of `main` — the
first failure in completion order aborts the loop. -/
def collectResults : List (Except String SubdirResult) → Except String (List SubdirResult)
  | [] => Except.ok []
  | Except.error e :: _ => Except.error e
  | Except.ok r :: rest => Except.map (fun rs => r :: rs) (collectResults rest)

/-- Ordinal (code-point-wise lexicographic) comparison of strings, the order
Python's `sorted` uses on `str` keys. -/
def ordLe : List Char → List Char → Bool
  | [], _ => true
  | _ :: _, [] => false
  | a :: as, b :: bs =>
    if a.toNat < b.toNat then true
    else if b.toNat < a.toNat then false
    else ordLe as bs

/-- Line 122: `sorted(res, key=lambda d: d.name)` — a stable sort of the
collected records, ascending by display name under ordinal comparison. -/
def sortedByName (dirs : List RenderedSubdir) : List RenderedSubdir :=
  dirs.mergeSort (fun a b => ordLe a.name.toList b.name.toList)

/-- The per-image anchor block of the gallery template (lines 126-130). -/
def imgAnchor (img : RenderedImg) : String :=
  "\n                    <a href=\"" ++ img.relimgpath ++ "\" itemprop=\"contentUrl\" title=\"" ++
    img.filename ++ "\" data-lightbox=\"global\">\n                        <img itemprop=\"thumbnail\" src=\"" ++
    img.relthumbpath ++ "\" alt=\"" ++ img.filename ++ "\" />\n                    </a>\n                    "

/-- The `<h1>` heading emitted for a directory section (line 133). -/
def headingOf (name : String) : String := "<h1>" ++ name ++ "</h1>"

/-- The opening tag of the image-gallery container `<div>` (line 134). -/
def containerOpen (divid : Nat) : String :=
  "<div id=\"dirdiv" ++ Nat.repr divid ++ "\" itemscope itemtype=\"http://schema.org/ImageGallery\">"

/-- The per-directory `justifiedGallery` initialisation snippet (lines 137-142). -/
def galleryScript (divid height : Nat) : String :=
  "<script>\n                $(\"#dirdiv" ++ Nat.repr divid ++
    "\").justifiedGallery(\x7b\n                    rowHeight: " ++ Nat.repr height ++
    ",\n                    lastRow: \"left\",\n                \x7d);\n            </script>"

/-- The whole `div` f-string for one directory section (lines 132-143): heading,
image-gallery container (emitted unconditionally, its contents the joined image
anchors), and initialisation script. -/
def dirDiv (height divid : Nat) (d : RenderedSubdir) : String :=
  "\n            " ++ headingOf d.name ++ "\n            " ++ containerOpen divid ++
    "\n              " ++ String.intercalate "\n" (d.images.map imgAnchor) ++
    "\n            </div>\n            " ++ galleryScript divid height ++ "\n            "

/-- The page body (lines 121-145): one `dirDiv` per directory in sorted order,
`divid` counting up from 1, joined with newlines. -/
def buildBody (height : Nat) (dirs : List RenderedSubdir) : String :=
  String.intercalate "\n" ((List.enumFrom 1 (sortedByName dirs)).map (fun p => dirDiv height p.1 p.2))

/-- The document head of `index.html` (lines 146-158), parameterised by the
page title `args.indir.name`. -/
def pageHead (title : String) : String :=
  "\n<!DOCTYPE html>\n<html>\n  <head>\n    <meta charset=\"utf-8\" />\n    <meta name=\"viewport\" content=\"width=device-width, initial-scale=1.0\" />\n    <title>" ++
    title ++
    "</title>\n    <script src=\"https://cdn.jsdelivr.net/npm/jquery@3.7.1/dist/jquery.min.js\" integrity=\"sha256-/JqT3SQfawRcv/BIHPThkBvs0OEvtFFmqPF/lYI/Cxo=\" crossorigin=\"anonymous\"></script>\n    <script src=\"https://cdn.jsdelivr.net/npm/justifiedGallery@3.8.1/dist/js/jquery.justifiedGallery.min.js\" integrity=\"sha256-sv0FpYm7s9wU5OAD8AzZGhVXlvKBUQvjoJjL435kS1o=\" crossorigin=\"anonymous\"></script>\n    <script src=\"https://cdn.jsdelivr.net/npm/lightbox2@2.11.4/dist/js/lightbox.min.js\" integrity=\"sha256-TDAA/HYea7i2C/VZwZ7kw0mTTUAoDVup9sMJ9KlVhbs=\" crossorigin=\"anonymous\"></script>\n    <link rel=\"stylesheet\" href=\"https://cdn.jsdelivr.net/npm/lightbox2@2.11.4/dist/css/lightbox.min.css\" integrity=\"sha256-tBxlolRHP9uMsEFKVk+hk//ekOlXOixLKvye5W2WR5c=\" crossorigin=\"anonymous\">\n    <link rel=\"stylesheet\" href=\"https://cdn.jsdelivr.net/npm/justifiedGallery@3.8.1/dist/css/justifiedGallery.min.css\" integrity=\"sha256-YBy2rK4TkyaeKbMYUy56/rUERtR7sMEmkQvDr9EuHUQ=\" crossorigin=\"anonymous\">\n  </head>\n"

/-- The complete `index.html` content written on lines 146-163. -/
def buildPage (title : String) (height : Nat) (dirs : List RenderedSubdir) : String :=
  pageHead title ++ "  <body>\n  " ++ buildBody height dirs ++ "\n  </body>\n</html>\n"

/-- The tail of `main` after the pool: collect results in completion order,
then sort and render the page.  `Except.ok page` models a run that writes
`index.html` with content `page` and exits 0; `Except.error e` models a run
killed by an uncaught exception `e` before `index.html` is written (non-zero
exit). -/
def runMain (completed : List (Except String SubdirResult)) (title : String)
    (height : Nat) : Except String String :=
  Except.map (fun rs => buildPage title height (rs.map SubdirResult.result)) (collectResults completed)

/-- Whether a run of `main` wrote `index.html` (equivalently, exited 0). -/
def pageWritten : Except String String → Bool
  | Except.ok _ => true
  | Except.error _ => false

/-- Substring test on character lists. -/
def hasSubstr (hay pat : List Char) : Bool :=
  (List.range (hay.length + 1)).any (fun i => (hay.drop i).take pat.length == pat)

/-- Concrete input tree: an empty root plus one empty subdirectory `"a"`. -/
def fsOneFailing : InputFS := ⟨true, [], [("a", [])]⟩

/-- Failure oracle under which only the output folder `"a"` cannot be created. -/
def mkdirFailsA : String → Bool := fun d => if d = "a" then true else false

/-- Concrete input tree whose root does not exist (or is not a directory). -/
def fsMissingRoot : InputFS := ⟨false, [], []⟩

/-- Failure oracle under which every `mkdir` succeeds. -/
def mkdirFailsNone : String → Bool := fun _ => false

/-- `roundAspect` never returns less than 1 pixel. -/
theorem one_le_roundAspect (t : ℚ) (key : ℤ → ℚ) : 1 ≤ roundAspect t key :=
  le_max_right _ _

/-- `roundAspect` stays below any integer bound `b ≥ 1` that bounds its input. -/
theorem roundAspect_le {t : ℚ} {b : ℤ} (key : ℤ → ℚ) (hb : 1 ≤ b) (ht : t ≤ (b : ℚ)) :
    roundAspect t key ≤ b := by
  unfold roundAspect
  apply max_le _ hb
  split
  · exact le_trans (Int.floor_le_ceil t) (Int.ceil_le.mpr ht)
  · exact Int.ceil_le.mpr ht

/-- For positive input, `roundAspect` returns the floor or the ceiling of its
input (the clamp to 1 coincides with the ceiling when the floor is 0). -/
theorem roundAspect_eq_floor_or_ceil {t : ℚ} (ht : 0 < t) (key : ℤ → ℚ) :
    roundAspect t key = ⌊t⌋ ∨ roundAspect t key = ⌈t⌉ := by
  unfold roundAspect
  have hceil : 1 ≤ ⌈t⌉ := Int.ceil_pos.mpr ht
  have hfloor : 0 ≤ ⌊t⌋ := Int.floor_nonneg.mpr ht.le
  split
  · rcases eq_or_lt_of_le hfloor with h0 | h1
    · right
      have htlt : t < 1 := by
        have h2 := Int.lt_floor_add_one t
        rw [← h0] at h2
        simpa using h2
      have hc1 : ⌈t⌉ = 1 := le_antisymm (Int.ceil_le.mpr (by exact_mod_cast htlt.le)) hceil
      rw [← h0, hc1]
      exact max_eq_right zero_le_one
    · left
      exact max_eq_left h1
  · right
    exact max_eq_left hceil

/-- For positive input, `roundAspect` is within one pixel of its input. -/
theorem abs_roundAspect_sub_lt_one {t : ℚ} (ht : 0 < t) (key : ℤ → ℚ) :
    |(roundAspect t key : ℚ) - t| < 1 := by
  rcases roundAspect_eq_floor_or_ceil ht key with h | h <;> rw [h] <;> rw [abs_lt] <;> constructor
  · have := Int.sub_one_lt_floor t
    linarith
  · have := Int.floor_le t
    linarith
  · have := Int.le_ceil t
    linarith
  · have := Int.ceil_lt_add_one t
    linarith

/-- Branch equation: an image already inside the box is returned unchanged. -/
theorem thumbSize_of_fit {w h x y : ℕ} (hfit : x ≥ w ∧ y ≥ h) :
    thumbSize w h x y = (w, h) := by
  unfold thumbSize
  rw [if_pos hfit]

/-- Branch equation: box at least as wide as the aspect ratio, height binds. -/
theorem thumbSize_of_wide {w h x y : ℕ} (hfit : ¬(x ≥ w ∧ y ≥ h))
    (hc : (x : ℚ) / (y : ℚ) ≥ (w : ℚ) / (h : ℚ)) :
    thumbSize w h x y =
      ((roundAspect ((y : ℚ) * ((w : ℚ) / (h : ℚ)))
          (fun n => |(w : ℚ) / (h : ℚ) - (n : ℚ) / (y : ℚ)|)).toNat, y) := by
  unfold thumbSize
  rw [if_neg hfit, if_pos hc]

/-- Branch equation: box narrower than the aspect ratio, width binds. -/
theorem thumbSize_of_tall {w h x y : ℕ} (hfit : ¬(x ≥ w ∧ y ≥ h))
    (hc : ¬((x : ℚ) / (y : ℚ) ≥ (w : ℚ) / (h : ℚ))) :
    thumbSize w h x y =
      (x, (roundAspect ((x : ℚ) / ((w : ℚ) / (h : ℚ)))
          (fun n => if n = 0 then 0 else |(w : ℚ) / (h : ℚ) - (x : ℚ) / (n : ℚ)|)).toNat) := by
  unfold thumbSize
  rw [if_neg hfit, if_neg hc]

/-- Main property of the thumbnail size computation: for a positive image and a
positive box, the result fits the box, never exceeds the source dimensions, and
distorts the aspect ratio by less than one source pixel (the cross product
error `|tw*h - th*w|` stays below `max w h`). -/
theorem thumbSize_spec (w h x y : ℕ) (hw : 1 ≤ w) (hh : 1 ≤ h) (hx : 1 ≤ x) (hy : 1 ≤ y) :
    (thumbSize w h x y).1 ≤ x ∧ (thumbSize w h x y).2 ≤ y ∧
    (thumbSize w h x y).1 ≤ w ∧ (thumbSize w h x y).2 ≤ h ∧
    |((thumbSize w h x y).1 : ℤ) * (h : ℤ) - ((thumbSize w h x y).2 : ℤ) * (w : ℤ)| <
      ((max w h : ℕ) : ℤ) := by
  have hwq : (0 : ℚ) < w := by exact_mod_cast hw
  have hhq : (0 : ℚ) < h := by exact_mod_cast hh
  have hxq : (0 : ℚ) < x := by exact_mod_cast hx
  have hyq : (0 : ℚ) < y := by exact_mod_cast hy
  have hmax : (0 : ℤ) < ((max w h : ℕ) : ℤ) := by
    exact_mod_cast lt_of_lt_of_le hw (le_max_left w h)
  by_cases hfit : x ≥ w ∧ y ≥ h
  · rw [thumbSize_of_fit hfit]
    refine ⟨hfit.1, hfit.2, le_refl w, le_refl h, ?_⟩
    have : ((w : ℤ)) * (h : ℤ) - (h : ℤ) * (w : ℤ) = 0 := by ring
    rw [this, abs_zero]
    exact hmax
  · by_cases hc : (x : ℚ) / (y : ℚ) ≥ (w : ℚ) / (h : ℚ)
    · -- height-bound branch
      rw [thumbSize_of_wide hfit hc]
      have haspect : (0 : ℚ) < (w : ℚ) / (h : ℚ) := div_pos hwq hhq
      have ht0 : (0 : ℚ) < (y : ℚ) * ((w : ℚ) / (h : ℚ)) := mul_pos hyq haspect
      have htx : (y : ℚ) * ((w : ℚ) / (h : ℚ)) ≤ (x : ℚ) := by
        have := (le_div_iff₀ hyq).mp hc
        linarith [mul_comm ((w : ℚ) / (h : ℚ)) (y : ℚ)]
      have hyh : y < h := by
        by_contra hcon
        push_neg at hcon
        apply hfit
        refine ⟨?_, hcon⟩
        have hcross : (w : ℚ) * (y : ℚ) ≤ (x : ℚ) * (h : ℚ) := (div_le_div_iff hhq hyq).mp hc
        have hhy : (h : ℚ) ≤ (y : ℚ) := by exact_mod_cast hcon
        have : (w : ℚ) * (y : ℚ) ≤ (x : ℚ) * (y : ℚ) := by nlinarith
        have : (w : ℚ) ≤ (x : ℚ) := le_of_mul_le_mul_right this hyq
        exact_mod_cast this
      have hyhq : (y : ℚ) < (h : ℚ) := by exact_mod_cast hyh
      have hhw : (h : ℚ) * ((w : ℚ) / (h : ℚ)) = (w : ℚ) := by field_simp
      have htw : (y : ℚ) * ((w : ℚ) / (h : ℚ)) < (w : ℚ) := by
        calc (y : ℚ) * ((w : ℚ) / (h : ℚ)) < (h : ℚ) * ((w : ℚ) / (h : ℚ)) :=
              mul_lt_mul_of_pos_right hyhq haspect
          _ = (w : ℚ) := hhw
      set k : ℤ → ℚ := fun n => |(w : ℚ) / (h : ℚ) - (n : ℚ) / (y : ℚ)| with hk
      set ra : ℤ := roundAspect ((y : ℚ) * ((w : ℚ) / (h : ℚ))) k with hra
      have h1ra : 1 ≤ ra := one_le_roundAspect _ _
      have hra_nonneg : 0 ≤ ra := le_trans zero_le_one h1ra
      have htonat : ((ra.toNat : ℕ) : ℤ) = ra := Int.toNat_of_nonneg hra_nonneg
      have hra_x : ra ≤ (x : ℤ) := roundAspect_le k (by exact_mod_cast hx) (by push_cast; exact htx)
      have hra_w : ra ≤ (w : ℤ) := roundAspect_le k (by exact_mod_cast hw) (by push_cast; exact htw.le)
      refine ⟨Int.toNat_le.mpr hra_x, le_refl y, Int.toNat_le.mpr hra_w, hyh.le, ?_⟩
      have hclose : |(ra : ℚ) - (y : ℚ) * ((w : ℚ) / (h : ℚ))| < 1 :=
        abs_roundAspect_sub_lt_one ht0 k
      have hth : (y : ℚ) * ((w : ℚ) / (h : ℚ)) * (h : ℚ) = (y : ℚ) * (w : ℚ) := by
        field_simp
      have hmul : |(ra : ℚ) * (h : ℚ) - (y : ℚ) * (w : ℚ)| < (h : ℚ) := by
        have hfact : (ra : ℚ) * (h : ℚ) - (y : ℚ) * (w : ℚ) =
            ((ra : ℚ) - (y : ℚ) * ((w : ℚ) / (h : ℚ))) * (h : ℚ) := by
          rw [sub_mul, hth]
        rw [hfact, abs_mul, abs_of_pos hhq]
        calc |(ra : ℚ) - (y : ℚ) * ((w : ℚ) / (h : ℚ))| * (h : ℚ) < 1 * (h : ℚ) :=
              mul_lt_mul_of_pos_right hclose hhq
          _ = (h : ℚ) := one_mul _
      have hq : |((ra * (h : ℤ) - (y : ℤ) * (w : ℤ) : ℤ) : ℚ)| < ((h : ℕ) : ℚ) := by
        push_cast
        exact hmul
      rw [← Int.cast_abs] at hq
      have hz : |ra * (h : ℤ) - (y : ℤ) * (w : ℤ)| < (h : ℤ) := by exact_mod_cast hq
      dsimp only
      rw [htonat]
      calc |ra * (h : ℤ) - (y : ℤ) * (w : ℤ)| < (h : ℤ) := hz
        _ ≤ ((max w h : ℕ) : ℤ) := by exact_mod_cast le_max_right w h
    · -- width-bound branch
      rw [thumbSize_of_tall hfit hc]
      push_neg at hc
      have haspect : (0 : ℚ) < (w : ℚ) / (h : ℚ) := div_pos hwq hhq
      have hxw : x < w := by
        by_contra hcon
        push_neg at hcon
        apply hfit
        refine ⟨hcon, ?_⟩
        have hcross : (x : ℚ) * (h : ℚ) < (w : ℚ) * (y : ℚ) := (div_lt_div_iff hyq hhq).mp hc
        have hwx : (w : ℚ) ≤ (x : ℚ) := by exact_mod_cast hcon
        have : (w : ℚ) * (h : ℚ) < (w : ℚ) * (y : ℚ) := by nlinarith
        have : (h : ℚ) < (y : ℚ) := lt_of_mul_lt_mul_left this hwq.le
        exact_mod_cast this.le
      have hxwq : (x : ℚ) < (w : ℚ) := by exact_mod_cast hxw
      have ht0 : (0 : ℚ) < (x : ℚ) / ((w : ℚ) / (h : ℚ)) := div_pos hxq haspect
      have htmul : (x : ℚ) / ((w : ℚ) / (h : ℚ)) = (x : ℚ) * (h : ℚ) / (w : ℚ) :=
        div_div_eq_mul_div (x : ℚ) (w : ℚ) (h : ℚ)
      have hty : (x : ℚ) / ((w : ℚ) / (h : ℚ)) ≤ (y : ℚ) := by
        have hxy : (x : ℚ) < ((w : ℚ) / (h : ℚ)) * (y : ℚ) := (div_lt_iff₀ hyq).mp hc
        have := (div_le_iff₀ haspect).mpr (le_of_lt (by linarith [mul_comm ((w : ℚ) / (h : ℚ)) (y : ℚ)] : (x : ℚ) < (y : ℚ) * ((w : ℚ) / (h : ℚ))))
        exact this
      have hth : (x : ℚ) / ((w : ℚ) / (h : ℚ)) < (h : ℚ) := by
        rw [htmul]
        rw [div_lt_iff₀ hwq]
        nlinarith
      set k : ℤ → ℚ := fun n => if n = 0 then 0 else |(w : ℚ) / (h : ℚ) - (x : ℚ) / (n : ℚ)| with hk
      set ra : ℤ := roundAspect ((x : ℚ) / ((w : ℚ) / (h : ℚ))) k with hra
      have h1ra : 1 ≤ ra := one_le_roundAspect _ _
      have hra_nonneg : 0 ≤ ra := le_trans zero_le_one h1ra
      have htonat : ((ra.toNat : ℕ) : ℤ) = ra := Int.toNat_of_nonneg hra_nonneg
      have hra_y : ra ≤ (y : ℤ) := roundAspect_le k (by exact_mod_cast hy) (by push_cast; exact hty)
      have hra_h : ra ≤ (h : ℤ) := roundAspect_le k (by exact_mod_cast hh) (by push_cast; exact hth.le)
      refine ⟨le_refl x, Int.toNat_le.mpr hra_y, hxw.le, Int.toNat_le.mpr hra_h, ?_⟩
      have hclose : |(ra : ℚ) - (x : ℚ) / ((w : ℚ) / (h : ℚ))| < 1 :=
        abs_roundAspect_sub_lt_one ht0 k
      have htw2 : (x : ℚ) / ((w : ℚ) / (h : ℚ)) * (w : ℚ) = (x : ℚ) * (h : ℚ) := by
        rw [htmul]
        field_simp
      have hmul : |(ra : ℚ) * (w : ℚ) - (x : ℚ) * (h : ℚ)| < (w : ℚ) := by
        have hfact : (ra : ℚ) * (w : ℚ) - (x : ℚ) * (h : ℚ) =
            ((ra : ℚ) - (x : ℚ) / ((w : ℚ) / (h : ℚ))) * (w : ℚ) := by
          rw [sub_mul, htw2]
        rw [hfact, abs_mul, abs_of_pos hwq]
        calc |(ra : ℚ) - (x : ℚ) / ((w : ℚ) / (h : ℚ))| * (w : ℚ) < 1 * (w : ℚ) :=
              mul_lt_mul_of_pos_right hclose hwq
          _ = (w : ℚ) := one_mul _
      have hq : |((ra * (w : ℤ) - (x : ℤ) * (h : ℤ) : ℤ) : ℚ)| < ((w : ℕ) : ℚ) := by
        push_cast
        exact hmul
      rw [← Int.cast_abs] at hq
      have hz : |ra * (w : ℤ) - (x : ℤ) * (h : ℤ)| < (w : ℤ) := by exact_mod_cast hq
      dsimp only
      rw [htonat]
      have hswap : (x : ℤ) * (h : ℤ) - ra * (w : ℤ) = -(ra * (w : ℤ) - (x : ℤ) * (h : ℤ)) := by ring
      rw [hswap, abs_neg]
      calc |ra * (w : ℤ) - (x : ℤ) * (h : ℤ)| < (w : ℤ) := hz
        _ ≤ ((max w h : ℕ) : ℤ) := by exact_mod_cast le_max_left w h

/-- C4: for every successfully processed source image of dimensions w×h and
configured thumbnail height H, the thumbnail written by
`img.thumbnail((int(H*1.5), H))` has longer side at most 1.5×H (stated
integrally as twice the longer side at most 3×H) and shorter side at most H,
and the aspect ratio w/h is preserved within integer rounding (the cross
product `|tw*h - th*w|` is below `max w h`, i.e. the rounded dimension is
within one pixel of the exact aspect-preserving value). -/
theorem thumbnail_fits_box (w h H : Nat) (hw : 1 ≤ w) (hh : 1 ≤ h) (hH : 1 ≤ H) :
    2 * max (pilThumbnail w h H).1 (pilThumbnail w h H).2 ≤ 3 * H ∧
    min (pilThumbnail w h H).1 (pilThumbnail w h H).2 ≤ H ∧
    |((pilThumbnail w h H).1 : ℤ) * (h : ℤ) - ((pilThumbnail w h H).2 : ℤ) * (w : ℤ)| <
      ((max w h : ℕ) : ℤ) := by
  have hx : 1 ≤ 3 * H / 2 := by omega
  have hp : pilThumbnail w h H = thumbSize w h (3 * H / 2) H := rfl
  rw [hp]
  obtain ⟨h1, h2, _, h4, h5⟩ := thumbSize_spec w h (3 * H / 2) H hw hh hx hH
  refine ⟨?_, le_trans (min_le_right _ _) h2, h5⟩
  rcases le_total (thumbSize w h (3 * H / 2) H).1 (thumbSize w h (3 * H / 2) H).2 with hab | hab
  · rw [max_eq_right hab]
    omega
  · rw [max_eq_left hab]
    omega

/-- Witness for C4 at the spec's concrete scenario: a 4000×2000 source with
H = 240 obeys the bounding box 360×240 and the aspect bound. -/
theorem thumbnail_fits_box_witness :
    1 ≤ 4000 ∧ 1 ≤ 2000 ∧ 1 ≤ 240 ∧
    (2 * max (pilThumbnail 4000 2000 240).1 (pilThumbnail 4000 2000 240).2 ≤ 3 * 240 ∧
     min (pilThumbnail 4000 2000 240).1 (pilThumbnail 4000 2000 240).2 ≤ 240 ∧
     |((pilThumbnail 4000 2000 240).1 : ℤ) * (2000 : ℤ) -
        ((pilThumbnail 4000 2000 240).2 : ℤ) * (4000 : ℤ)| < ((max 4000 2000 : ℕ) : ℤ)) :=
  ⟨by decide, by decide, by decide,
   thumbnail_fits_box 4000 2000 240 (by decide) (by decide) (by decide)⟩

/-- C9: thumbnails are never upscaled: an image already inside the bounding box
(width at most int(1.5×H), height at most H) is kept at exactly its source
dimensions, and in general each thumbnail dimension is at most the
corresponding source dimension. -/
theorem thumbnail_never_upscales (w h H : Nat) (hw : 1 ≤ w) (hh : 1 ≤ h) (hH : 1 ≤ H) :
    (w ≤ 3 * H / 2 → h ≤ H → pilThumbnail w h H = (w, h)) ∧
    (pilThumbnail w h H).1 ≤ w ∧ (pilThumbnail w h H).2 ≤ h := by
  have hx : 1 ≤ 3 * H / 2 := by omega
  obtain ⟨_, _, h3, h4, _⟩ := thumbSize_spec w h (3 * H / 2) H hw hh hx hH
  exact ⟨fun hwx hhy => thumbSize_of_fit ⟨hwx, hhy⟩, h3, h4⟩

/-- Witness for C9 at a 300×200 source with H = 240 (already inside the
360×240 box, so it must be returned unchanged). -/
theorem thumbnail_never_upscales_witness :
    1 ≤ 300 ∧ 1 ≤ 200 ∧ 1 ≤ 240 ∧
    ((300 ≤ 3 * 240 / 2 → 200 ≤ 240 → pilThumbnail 300 200 240 = (300, 200)) ∧
     (pilThumbnail 300 200 240).1 ≤ 300 ∧ (pilThumbnail 300 200 240).2 ≤ 200) :=
  ⟨by decide, by decide, by decide,
   thumbnail_never_upscales 300 200 240 (by decide) (by decide) (by decide)⟩

/-- Ordinal comparison is reflexive. -/
theorem ordLe_refl (l : List Char) : ordLe l l = true := by
  induction l with
  | nil => rfl
  | cons a as ih =>
    unfold ordLe
    rw [if_neg (lt_irrefl a.toNat), if_neg (lt_irrefl a.toNat)]
    exact ih

/-- Characterisation of ordinal comparison on nonempty lists. -/
theorem ordLe_cons (x y : Char) (xs ys : List Char) :
    ordLe (x :: xs) (y :: ys) = true ↔
      x.toNat < y.toNat ∨ (x.toNat = y.toNat ∧ ordLe xs ys = true) := by
  constructor
  · intro hle
    unfold ordLe at hle
    split_ifs at hle with h1 h2
    · exact Or.inl h1
    · exact Or.inr ⟨by omega, hle⟩
  · rintro (hlt | ⟨he, ht⟩)
    · unfold ordLe
      rw [if_pos hlt]
    · unfold ordLe
      rw [if_neg (by omega : ¬x.toNat < y.toNat), if_neg (by omega : ¬y.toNat < x.toNat)]
      exact ht

/-- Ordinal comparison is transitive. -/
theorem ordLe_trans (a b c : List Char) (hab : ordLe a b = true) (hbc : ordLe b c = true) :
    ordLe a c = true := by
  induction a generalizing b c with
  | nil => rfl
  | cons x xs ih =>
    cases b with
    | nil => simp [ordLe] at hab
    | cons y ys =>
      cases c with
      | nil => simp [ordLe] at hbc
      | cons z zs =>
        rw [ordLe_cons] at hab hbc ⊢
        rcases hab with h1 | ⟨he1, ht1⟩ <;> rcases hbc with h2 | ⟨he2, ht2⟩
        · exact Or.inl (lt_trans h1 h2)
        · exact Or.inl (by omega)
        · exact Or.inl (by omega)
        · exact Or.inr ⟨by omega, ih ys zs ht1 ht2⟩

/-- Ordinal comparison is total. -/
theorem ordLe_total (a b : List Char) : (ordLe a b || ordLe b a) = true := by
  rw [Bool.or_eq_true]
  induction a generalizing b with
  | nil => exact Or.inl rfl
  | cons x xs ih =>
    cases b with
    | nil => exact Or.inr rfl
    | cons y ys =>
      rcases Nat.lt_trichotomy x.toNat y.toNat with hlt | heq | hgt
      · exact Or.inl ((ordLe_cons x y xs ys).mpr (Or.inl hlt))
      · rcases ih ys with h | h
        · exact Or.inl ((ordLe_cons x y xs ys).mpr (Or.inr ⟨heq, h⟩))
        · exact Or.inr ((ordLe_cons y x ys xs).mpr (Or.inr ⟨heq.symm, h⟩))
      · exact Or.inr ((ordLe_cons y x ys xs).mpr (Or.inl hgt))

/-- C7: the page enumerates directory sections in ascending order of display
name under total, locale-independent ordinal comparison, with ties broken by a
stable sort on arrival order (the elements of any equal-name class keep their
input order), the sorted list being a permutation of the arrivals; and inside
each emitted section the images appear as the record's image list mapped in
order (never re-sorted). -/
theorem sections_sorted_ordinal_stable (l : List RenderedSubdir) :
    List.Pairwise (fun a b => ordLe a.name.toList b.name.toList = true) (sortedByName l) ∧
    (sortedByName l).Perm l ∧
    (∀ s : String, (sortedByName l).filter (fun d => d.name == s) =
      l.filter (fun d => d.name == s)) ∧
    (∀ yres divid : Nat, ∀ d : RenderedSubdir, ∃ p q : String,
      dirDiv yres divid d = p ++ (String.intercalate "\n" (d.images.map imgAnchor) ++ q)) := by
  have htrans : ∀ a b c : RenderedSubdir, ordLe a.name.toList b.name.toList = true →
      ordLe b.name.toList c.name.toList = true → ordLe a.name.toList c.name.toList = true :=
    fun a b c hab hbc => ordLe_trans _ _ _ hab hbc
  have htotal : ∀ a b : RenderedSubdir,
      (ordLe a.name.toList b.name.toList || ordLe b.name.toList a.name.toList) = true :=
    fun a b => ordLe_total _ _
  refine ⟨List.sorted_mergeSort htrans htotal l, List.mergeSort_perm l _, ?_, ?_⟩
  · intro s
    have hperm : ((sortedByName l).filter (fun d => d.name == s)).Perm
        (l.filter (fun d => d.name == s)) :=
      (List.mergeSort_perm l _).filter _
    have hpw : (l.filter (fun d => d.name == s)).Pairwise
        (fun a b => ordLe a.name.toList b.name.toList = true) := by
      apply List.pairwise_of_forall_mem_list
      intro a ha b hb
      have ha' : a.name = s := by
        have h2 := (List.mem_filter.mp ha).2
        simpa using h2
      have hb' : b.name = s := by
        have h2 := (List.mem_filter.mp hb).2
        simpa using h2
      rw [ha', hb']
      exact ordLe_refl _
    have hsub : (l.filter (fun d => d.name == s)).Sublist (sortedByName l) :=
      List.sublist_mergeSort htrans htotal hpw (List.filter_sublist l)
    have hself : (l.filter (fun d => d.name == s)).filter (fun d => d.name == s) =
        l.filter (fun d => d.name == s) :=
      List.filter_eq_self.mpr (fun a ha => (List.mem_filter.mp ha).2)
    have hsub2 : (l.filter (fun d => d.name == s)).Sublist
        ((sortedByName l).filter (fun d => d.name == s)) := by
      have hstep := hsub.filter (fun d => d.name == s)
      rwa [hself] at hstep
    exact (hsub2.eq_of_length (hperm.length_eq.symm)).symm
  · intro yres divid d
    refine ⟨"\n            " ++ headingOf d.name ++ "\n            " ++ containerOpen divid ++
      "\n              ",
      "\n            </div>\n            " ++ galleryScript divid yres ++ "\n            ", ?_⟩
    simp [dirDiv, String.append_assoc]

/-- The full-size content choice always derives from the given source name. -/
theorem srcName_full_ite (c : Prop) [Decidable c] (n : String) :
    (if c then Content.copyOf n else Content.reencodeOf n).srcName = n := by
  split <;> rfl

/-- The full-size content choice is a full-size output in both branches. -/
theorem isFull_full_ite (c : Prop) [Decidable c] (n : String) :
    (if c then Content.copyOf n else Content.reencodeOf n).isFull = true := by
  split <;> rfl

/-- The file loop distributes over list concatenation, componentwise. -/
theorem renderFiles_append (d : String) (H : Nat) (l1 l2 : List SrcFile) :
    renderFiles d H (l1 ++ l2) =
      ((renderFiles d H l1).1 ++ (renderFiles d H l2).1,
       (renderFiles d H l1).2.1 ++ (renderFiles d H l2).2.1,
       (renderFiles d H l1).2.2 ++ (renderFiles d H l2).2.2) := by
  induction l1 with
  | nil => simp [renderFiles]
  | cons f fs ih => simp [renderFiles, ih]

/-- Every write the file loop performs derives from one of the processed
files. -/
theorem renderFiles_writes_src (d : String) (H : Nat) (files : List SrcFile) :
    ∀ ow ∈ (renderFiles d H files).1, ow.content.srcName ∈ files.map SrcFile.name := by
  induction files with
  | nil => simp [renderFiles]
  | cons f fs ih =>
    intro ow how
    simp only [renderFiles] at how
    rcases List.mem_append.mp how with h1 | h2
    · by_cases hd : f.decodes
      · simp [renderFile, hd] at h1
        rcases h1 with rfl | rfl
        · simp [srcName_full_ite]
        · simp [Content.srcName]
      · simp [renderFile, hd] at h1
    · exact List.mem_cons_of_mem _ (ih ow h2)

/-- Among the writes of a directory whose file names are distinct, a decodable
file `f` has exactly one full-size output: named after its stem with a `.jpg`
extension, a verbatim copy when the source extension is already `.jpg`/`.jpeg`
(case-insensitively) and a re-encode otherwise. -/
theorem renderFiles_filter_full (d : String) (H : Nat) (files : List SrcFile) (f : SrcFile)
    (hnd : (files.map SrcFile.name).Nodup) (hf : f ∈ files) (hdec : f.decodes = true) :
    (renderFiles d H files).1.filter
        (fun ow => ow.content.isFull && ow.content.srcName == f.name) =
      [⟨d ++ "/" ++ outName f.name,
        if isNormalizedName f.name then Content.copyOf f.name else Content.reencodeOf f.name⟩] := by
  induction files with
  | nil => cases hf
  | cons g gs ih =>
    have hnd' : (gs.map SrcFile.name).Nodup := (List.nodup_cons.mp (by simpa using hnd)).2
    have hgnotin : g.name ∉ gs.map SrcFile.name := (List.nodup_cons.mp (by simpa using hnd)).1
    rcases List.mem_cons.mp hf with heq | hmem
    · subst heq
      have htail : (renderFiles d H gs).1.filter
          (fun ow => ow.content.isFull && ow.content.srcName == f.name) = [] := by
        rw [List.filter_eq_nil_iff]
        intro ow how
        have hsrc := renderFiles_writes_src d H gs ow how
        have hne : ow.content.srcName ≠ f.name := fun he => hgnotin (he ▸ hsrc)
        simp [hne]
      simp only [renderFiles, List.filter_append, htail, List.append_nil]
      by_cases hn : isNormalizedName f.name <;>
        simp [renderFile, hdec, hn, Content.isFull, Content.srcName]
    · have hne : g.name ≠ f.name := by
        intro he
        exact hgnotin (he ▸ List.mem_map_of_mem SrcFile.name hmem)
      have hhead : (renderFile d H g).1.filter
          (fun ow => ow.content.isFull && ow.content.srcName == f.name) = [] := by
        by_cases hd2 : g.decodes <;> by_cases hn : isNormalizedName g.name <;>
          simp [renderFile, hd2, hn, Content.isFull, Content.srcName, hne]
      simp only [renderFiles, List.filter_append, hhead, List.nil_append]
      exact ih hnd' hmem

/-- C5: for every decodable file of a directory unit, the (unique) full-size
output is written to the directory's folder under the source stem with the
extension replaced by `.jpg`; it is a byte-for-byte copy of the source when the
source extension is already the normalized one (`.jpg`/`.jpeg`,
case-insensitive) and a decode-and-re-encode otherwise. -/
theorem fullsize_copy_or_reencode (dp : List String) (H : Nat) (files : List SrcFile)
    (f : SrcFile) (hnd : (files.map SrcFile.name).Nodup) (hf : f ∈ files)
    (hdec : f.decodes = true) :
    (renderSubdir dp H files).writes.filter
        (fun ow => ow.content.isFull && ow.content.srcName == f.name) =
      [⟨displayName dp ++ "/" ++ ((pyStem f.name.toList).asString ++ ".jpg"),
        if isNormalizedName f.name then Content.copyOf f.name else Content.reencodeOf f.name⟩] := by
  have h := renderFiles_filter_full (displayName dp) H files f hnd hf hdec
  simpa [renderSubdir, outName] using h

/-- Witness for C5: in a directory with one already-normalized file `a.JPG`
and one other file `b.png`, each gets its full-size write as stated. -/
theorem fullsize_copy_or_reencode_witness :
    ((([⟨"a.JPG", true, 10, 20⟩, ⟨"b.png", true, 30, 40⟩] : List SrcFile).map SrcFile.name).Nodup ∧
     (⟨"a.JPG", true, 10, 20⟩ : SrcFile) ∈ ([⟨"a.JPG", true, 10, 20⟩, ⟨"b.png", true, 30, 40⟩] : List SrcFile) ∧
     (⟨"a.JPG", true, 10, 20⟩ : SrcFile).decodes = true) ∧
    (renderSubdir ["in"] 480 [⟨"a.JPG", true, 10, 20⟩, ⟨"b.png", true, 30, 40⟩]).writes.filter
        (fun ow => ow.content.isFull && ow.content.srcName == "a.JPG") =
      [⟨displayName ["in"] ++ "/" ++ ((pyStem "a.JPG".toList).asString ++ ".jpg"),
        if isNormalizedName "a.JPG" then Content.copyOf "a.JPG" else Content.reencodeOf "a.JPG"⟩] :=
  ⟨⟨by decide, by decide, rfl⟩,
   fullsize_copy_or_reencode ["in"] 480 [⟨"a.JPG", true, 10, 20⟩, ⟨"b.png", true, 30, 40⟩]
     ⟨"a.JPG", true, 10, 20⟩ (by decide) (by decide) rfl⟩

/-- C6: a file that fails to decode is a per-file soft failure: one diagnostic
line goes to stderr, the file contributes no RenderedImg record and no output
writes, and the rest of the directory is processed exactly as if the file were
absent. -/
theorem decode_failure_isolated (dp : List String) (H : Nat) (pre post : List SrcFile)
    (bad : SrcFile) (hbad : bad.decodes = false) :
    (renderSubdir dp H (pre ++ bad :: post)).result.images =
      (renderSubdir dp H (pre ++ post)).result.images ∧
    (renderSubdir dp H (pre ++ bad :: post)).writes =
      (renderSubdir dp H (pre ++ post)).writes ∧
    (renderSubdir dp H (pre ++ bad :: post)).logs =
      (renderSubdir dp H pre).logs ++ decodeDiag bad.name :: (renderSubdir dp H post).logs := by
  have hbadf : renderFile (displayName dp) H bad = ([], [decodeDiag bad.name], []) := by
    simp [renderFile, hbad]
  refine ⟨?_, ?_, ?_⟩ <;>
    simp [renderSubdir, renderFiles_append, renderFiles, hbadf]

/-- Witness for C6: a corrupt file between two good files adds one diagnostic
and changes neither the images nor the writes. -/
theorem decode_failure_isolated_witness :
    (⟨"corrupt.bin", false, 0, 0⟩ : SrcFile).decodes = false ∧
    ((renderSubdir ["in"] 480 ([⟨"ok.jpg", true, 4, 4⟩] ++ ⟨"corrupt.bin", false, 0, 0⟩ :: [⟨"z.png", true, 6, 6⟩])).result.images =
       (renderSubdir ["in"] 480 ([⟨"ok.jpg", true, 4, 4⟩] ++ [⟨"z.png", true, 6, 6⟩])).result.images ∧
     (renderSubdir ["in"] 480 ([⟨"ok.jpg", true, 4, 4⟩] ++ ⟨"corrupt.bin", false, 0, 0⟩ :: [⟨"z.png", true, 6, 6⟩])).writes =
       (renderSubdir ["in"] 480 ([⟨"ok.jpg", true, 4, 4⟩] ++ [⟨"z.png", true, 6, 6⟩])).writes ∧
     (renderSubdir ["in"] 480 ([⟨"ok.jpg", true, 4, 4⟩] ++ ⟨"corrupt.bin", false, 0, 0⟩ :: [⟨"z.png", true, 6, 6⟩])).logs =
       (renderSubdir ["in"] 480 [⟨"ok.jpg", true, 4, 4⟩]).logs ++
         decodeDiag "corrupt.bin" :: (renderSubdir ["in"] 480 [⟨"z.png", true, 6, 6⟩]).logs) :=
  ⟨rfl, decode_failure_isolated ["in"] 480 [⟨"ok.jpg", true, 4, 4⟩] [⟨"z.png", true, 6, 6⟩]
    ⟨"corrupt.bin", false, 0, 0⟩ rfl⟩

/-- `applyWrites` on concatenated write sequences: the later block shadows the
earlier one. -/
theorem applyWrites_append (l1 l2 : List OutWrite) (p : String) :
    applyWrites (l1 ++ l2) p =
      match applyWrites l2 p with
      | some c => some c
      | none => applyWrites l1 p := by
  induction l1 with
  | nil =>
    cases h : applyWrites l2 p <;> simp [applyWrites, h]
  | cons ow rest ih =>
    cases h2 : applyWrites l2 p <;> simp [applyWrites, ih, h2]

/-- A decodable file appends its `RenderedImg` record, pointing at the two
output paths derived from its stem. -/
theorem renderFiles_img_mem (d : String) (H : Nat) (files : List SrcFile) (f : SrcFile)
    (hf : f ∈ files) (hdec : f.decodes = true) :
    (⟨f.name, d ++ "/" ++ outName f.name, d ++ "/" ++ thumbName f.name⟩ : RenderedImg) ∈
      (renderFiles d H files).2.2 := by
  induction files with
  | nil => cases hf
  | cons g gs ih =>
    rcases List.mem_cons.mp hf with heq | hmem
    · subst heq
      simp [renderFiles, renderFile, hdec]
    · simp only [renderFiles]
      exact List.mem_append_right _ (ih hmem)

/-- The output paths of a full-size image and of any thumbnail differ (their
lengths differ by the 6 characters of the `.thumb` infix). -/
theorem outName_ne_thumbName (d : String) (n : String) :
    d ++ "/" ++ outName n ≠ d ++ "/" ++ thumbName n := by
  intro he
  have hl := congrArg String.length he
  have h4 : (".jpg" : String).length = 4 := rfl
  have h10 : (".thumb.jpg" : String).length = 10 := rfl
  simp [String.length_append, outName, thumbName, h4, h10] at hl

/-- C10: output paths depend only on the stem: two decodable files with equal
stems in one directory unit get identical full-size and thumbnail relative
paths; both still append their own `RenderedImg` record, and the final content
at the shared paths is the later-processed file's full-size output and
thumbnail (the later file overwrites the earlier one's files). -/
theorem stem_collision_overwrites (dp : List String) (H : Nat) (pre mid : List SrcFile)
    (f g : SrcFile) (hf : f.decodes = true) (hg : g.decodes = true)
    (hstem : pyStem f.name.toList = pyStem g.name.toList) :
    (⟨f.name, displayName dp ++ "/" ++ outName f.name,
        displayName dp ++ "/" ++ thumbName f.name⟩ : RenderedImg) ∈
      (renderSubdir dp H (pre ++ f :: mid ++ [g])).result.images ∧
    (⟨g.name, displayName dp ++ "/" ++ outName f.name,
        displayName dp ++ "/" ++ thumbName f.name⟩ : RenderedImg) ∈
      (renderSubdir dp H (pre ++ f :: mid ++ [g])).result.images ∧
    applyWrites (renderSubdir dp H (pre ++ f :: mid ++ [g])).writes
        (displayName dp ++ "/" ++ outName f.name) =
      some (if isNormalizedName g.name then Content.copyOf g.name
            else Content.reencodeOf g.name) ∧
    applyWrites (renderSubdir dp H (pre ++ f :: mid ++ [g])).writes
        (displayName dp ++ "/" ++ thumbName f.name) =
      some (Content.thumbOf g.name (pilThumbnail g.width g.height H)) := by
  have houtg : outName g.name = outName f.name := by
    unfold outName
    rw [hstem]
  have hthumbg : thumbName g.name = thumbName f.name := by
    unfold thumbName
    rw [hstem]
  have himgs : (renderSubdir dp H (pre ++ f :: mid ++ [g])).result.images =
      (renderFiles (displayName dp) H (pre ++ f :: mid ++ [g])).2.2 := rfl
  have hmemf : (⟨f.name, displayName dp ++ "/" ++ outName f.name,
      displayName dp ++ "/" ++ thumbName f.name⟩ : RenderedImg) ∈
      (renderFiles (displayName dp) H (pre ++ f :: mid ++ [g])).2.2 :=
    renderFiles_img_mem _ H _ f (by simp) hf
  have hmemg : (⟨g.name, displayName dp ++ "/" ++ outName g.name,
      displayName dp ++ "/" ++ thumbName g.name⟩ : RenderedImg) ∈
      (renderFiles (displayName dp) H (pre ++ f :: mid ++ [g])).2.2 :=
    renderFiles_img_mem _ H _ g (by simp) hg
  rw [houtg, hthumbg] at hmemg
  have hsplit : pre ++ f :: mid ++ [g] = (pre ++ f :: mid) ++ [g] := by simp
  have hwrites : (renderSubdir dp H (pre ++ f :: mid ++ [g])).writes =
      (renderFiles (displayName dp) H (pre ++ f :: mid)).1 ++
        (renderFile (displayName dp) H g).1 := by
    rw [show (renderSubdir dp H (pre ++ f :: mid ++ [g])).writes =
          (renderFiles (displayName dp) H (pre ++ f :: mid ++ [g])).1 from rfl,
        hsplit, renderFiles_append]
    simp [renderFiles]
  have hgw : (renderFile (displayName dp) H g).1 =
      [⟨displayName dp ++ "/" ++ outName g.name,
          if isNormalizedName g.name then Content.copyOf g.name
          else Content.reencodeOf g.name⟩,
       ⟨displayName dp ++ "/" ++ thumbName g.name,
          Content.thumbOf g.name (pilThumbnail g.width g.height H)⟩] := by
    simp [renderFile, hg]
  have hne := outName_ne_thumbName (displayName dp) f.name
  have happly_full : applyWrites (renderFile (displayName dp) H g).1
      (displayName dp ++ "/" ++ outName f.name) =
      some (if isNormalizedName g.name then Content.copyOf g.name
            else Content.reencodeOf g.name) := by
    rw [hgw, houtg, hthumbg]
    simp [applyWrites, hne]
  have happly_thumb : applyWrites (renderFile (displayName dp) H g).1
      (displayName dp ++ "/" ++ thumbName f.name) =
      some (Content.thumbOf g.name (pilThumbnail g.width g.height H)) := by
    rw [hgw, houtg, hthumbg]
    simp [applyWrites]
  refine ⟨himgs ▸ hmemf, himgs ▸ hmemg, ?_, ?_⟩
  · rw [hwrites, applyWrites_append, happly_full]
  · rw [hwrites, applyWrites_append, happly_thumb]

/-- Witness for C10: `a.png` then `a.jpg` in one directory share both output
paths; the final files at those paths come from `a.jpg`. -/
theorem stem_collision_overwrites_witness :
    ((⟨"a.png", true, 10, 10⟩ : SrcFile).decodes = true ∧
     (⟨"a.jpg", true, 8, 5⟩ : SrcFile).decodes = true ∧
     pyStem "a.png".toList = pyStem "a.jpg".toList) ∧
    ((⟨"a.png", displayName ["in"] ++ "/" ++ outName "a.png",
        displayName ["in"] ++ "/" ++ thumbName "a.png"⟩ : RenderedImg) ∈
      (renderSubdir ["in"] 480 ([] ++ ⟨"a.png", true, 10, 10⟩ :: [] ++ [⟨"a.jpg", true, 8, 5⟩])).result.images ∧
     (⟨"a.jpg", displayName ["in"] ++ "/" ++ outName "a.png",
        displayName ["in"] ++ "/" ++ thumbName "a.png"⟩ : RenderedImg) ∈
      (renderSubdir ["in"] 480 ([] ++ ⟨"a.png", true, 10, 10⟩ :: [] ++ [⟨"a.jpg", true, 8, 5⟩])).result.images ∧
     applyWrites (renderSubdir ["in"] 480 ([] ++ ⟨"a.png", true, 10, 10⟩ :: [] ++ [⟨"a.jpg", true, 8, 5⟩])).writes
        (displayName ["in"] ++ "/" ++ outName "a.png") =
      some (if isNormalizedName "a.jpg" then Content.copyOf "a.jpg"
            else Content.reencodeOf "a.jpg") ∧
     applyWrites (renderSubdir ["in"] 480 ([] ++ ⟨"a.png", true, 10, 10⟩ :: [] ++ [⟨"a.jpg", true, 8, 5⟩])).writes
        (displayName ["in"] ++ "/" ++ thumbName "a.png") =
      some (Content.thumbOf "a.jpg" (pilThumbnail 8 5 480))) :=
  ⟨⟨rfl, rfl, by decide⟩,
   stem_collision_overwrites ["in"] 480 [] [] ⟨"a.png", true, 10, 10⟩ ⟨"a.jpg", true, 8, 5⟩
     rfl rfl (by decide)⟩

/-- If any collected future holds an exception, the collection loop ends with
an uncaught exception. -/
theorem collectResults_error (l : List (Except String SubdirResult)) (e : String)
    (he : Except.error e ∈ l) : ∃ e', collectResults l = Except.error e' := by
  induction l with
  | nil => cases he
  | cons j rest ih =>
    cases j with
    | error e0 => exact ⟨e0, rfl⟩
    | ok r =>
      rcases List.mem_cons.mp he with habs | hmem
      · simp at habs
      · obtain ⟨e', he'⟩ := ih hmem
        exact ⟨e', by simp [collectResults, he', Except.map]⟩

/-- C1 counterexample: with an empty root `in` and one subdirectory `a` whose
output folder cannot be created, the root unit succeeds but `main` dies with
the re-raised exception when collecting results — `index.html` is not produced
for the successful unit, refuting the claim that a failed unit is merely
omitted from the generated page. -/
theorem unit_failure_counterexample :
    jobsOf fsOneFailing ["in"] mkdirFailsA 480 =
      [Except.ok ⟨⟨"in", []⟩, [], []⟩, Except.error "a"] ∧
    runMain (jobsOf fsOneFailing ["in"] mkdirFailsA 480) "in" 480 = Except.error "a" := by
  constructor <;> rfl

/-- C1 (amended): a unit that fails with an unrecoverable error does not cancel
sibling units — every scanned unit is still dispatched and runs to completion
regardless of other units' failures — but the failure is not recovered: in any
completion order, `job.result()` re-raises the exception out of the collection
loop, so the successful units' records are discarded, no `index.html` is
written, and the process exits non-zero. -/
theorem unit_failure_aborts_page (fs : InputFS) (indir : List String)
    (mf : String → Bool) (H : Nat) (title : String)
    (completed : List (Except String SubdirResult)) (e : String)
    (_hperm : completed.Perm (jobsOf fs indir mf H))
    (he : Except.error e ∈ completed) :
    (∃ e', runMain completed title H = Except.error e') ∧
    ∀ u ∈ scanUnits fs indir, runUnit mf H u ∈ jobsOf fs indir mf H := by
  constructor
  · obtain ⟨e', he'⟩ := collectResults_error completed e he
    exact ⟨e', by simp [runMain, he', Except.map]⟩
  · intro u hu
    exact List.mem_map_of_mem _ hu

/-- Witness for C1 (amended) on the concrete failing run, with the identity
completion order. -/
theorem unit_failure_aborts_page_witness :
    ((jobsOf fsOneFailing ["in"] mkdirFailsA 480).Perm (jobsOf fsOneFailing ["in"] mkdirFailsA 480) ∧
     Except.error "a" ∈ jobsOf fsOneFailing ["in"] mkdirFailsA 480) ∧
    ((∃ e', runMain (jobsOf fsOneFailing ["in"] mkdirFailsA 480) "in" 480 = Except.error e') ∧
     ∀ u ∈ scanUnits fsOneFailing ["in"],
       runUnit mkdirFailsA 480 u ∈ jobsOf fsOneFailing ["in"] mkdirFailsA 480) :=
  ⟨⟨List.Perm.refl _, List.Mem.tail _ (List.Mem.head _)⟩,
   unit_failure_aborts_page fsOneFailing ["in"] mkdirFailsA 480 "in"
     (jobsOf fsOneFailing ["in"] mkdirFailsA 480) "a" (List.Perm.refl _)
     (List.Mem.tail _ (List.Mem.head _))⟩

/-- C2 counterexample: pointed at a missing (or non-directory) input root,
`main` does not fail: `os.walk` yields nothing, zero units are scanned, and an
`index.html` (with no sections) is still written, the process exiting zero —
refuting the claimed `InputNotFound` abort with non-zero exit. -/
theorem missing_root_counterexample :
    scanUnits fsMissingRoot ["nonexistent"] = [] ∧
    pageWritten (runMain (jobsOf fsMissingRoot ["nonexistent"] mkdirFailsNone 480)
      "nonexistent" 480) = true := by
  constructor <;> rfl

/-- C2 (amended): an input root that does not exist or is not a directory is
silently treated as empty: no directory unit is created, no per-directory
output is produced, and the run still writes an `index.html` whose body lists
no sections and exits zero. -/
theorem missing_root_silent (fs : InputFS) (indir : List String) (mf : String → Bool)
    (H : Nat) (title : String) (hroot : fs.rootExists = false) :
    scanUnits fs indir = [] ∧
    runMain (jobsOf fs indir mf H) title H = Except.ok (buildPage title H []) := by
  have hs : scanUnits fs indir = [] := by simp [scanUnits, hroot]
  refine ⟨hs, ?_⟩
  simp [jobsOf, hs, runMain, collectResults, Except.map]

/-- Witness for C2 (amended) at the concrete missing-root run. -/
theorem missing_root_silent_witness :
    fsMissingRoot.rootExists = false ∧
    (scanUnits fsMissingRoot ["nope"] = [] ∧
     runMain (jobsOf fsMissingRoot ["nope"] mkdirFailsNone 480) "nope" 480 =
       Except.ok (buildPage "nope" 480 [])) :=
  ⟨rfl, missing_root_silent fsMissingRoot ["nope"] mkdirFailsNone 480 "nope" rfl⟩

/-- C3 counterexample: for an input root named `photos`, the root unit is
submitted as `root/"."`, but `pathlib` collapses the trailing `"."`, so the
unit's display name — its output folder and its page heading — is `photos`,
not the claimed sentinel `"."`. -/
theorem root_sentinel_counterexample :
    (renderSubdir (pathJoin ["photos"] ".") 480 []).result.name = "photos" ∧
    ("photos" : String) ≠ "." := by
  constructor
  · rfl
  · decide

/-- C3 (amended): the root unit's display name is the input root's own
basename (`root/"."` equals `root` after pathlib normalisation); the sentinel
`"."` is used only when that basename is empty, e.g. when the input root is
given as `"."` or `"/"`. -/
theorem root_unit_display_name (indir : List String) (H : Nat) (files : List SrcFile) :
    (renderSubdir (pathJoin indir ".") H files).result.name =
      (if pathName indir = "" then "." else pathName indir) := by
  have hj : pathJoin indir "." = indir := by simp [pathJoin]
  rw [hj]
  rfl

/-- C8 counterexample: for a directory section with zero images, the emitted
markup still contains the image-gallery container `<div>` — the builder does
not skip it. -/
theorem empty_dir_container_counterexample :
    hasSubstr (dirDiv 480 1 ⟨"b", []⟩).toList
      "<div id=\"dirdiv1\" itemscope itemtype=\"http://schema.org/ImageGallery\">".toList
      = true := by
  set_option maxRecDepth 100000 in decide

/-- C8 (amended): every directory unit yields exactly one `RenderedSubdir`
carrying its display name — an empty list of images when no file decodes — and
for a record with zero images the page builder still emits both the section
heading and the (empty) image-gallery container element. -/
theorem empty_dir_section (dp : List String) (H yres divid : Nat) (files : List SrcFile)
    (d : RenderedSubdir) (hfiles : ∀ f ∈ files, f.decodes = false) (_hd : d.images = []) :
    (renderSubdir dp H files).result = ⟨displayName dp, []⟩ ∧
    (∃ p q : String, dirDiv yres divid d = p ++ (headingOf d.name ++ q)) ∧
    (∃ p q : String, dirDiv yres divid d = p ++ (containerOpen divid ++ q)) := by
  refine ⟨?_, ?_, ?_⟩
  · have himgs : ∀ fl : List SrcFile, (∀ f ∈ fl, f.decodes = false) →
        (renderFiles (displayName dp) H fl).2.2 = [] := by
      intro fl
      induction fl with
      | nil => intro _; rfl
      | cons f fs ih =>
        intro hall
        have hf : f.decodes = false := hall f (List.mem_cons_self f fs)
        have hfs := ih (fun x hx => hall x (List.mem_cons_of_mem f hx))
        simp [renderFiles, renderFile, hf, hfs]
    have h := himgs files hfiles
    show (⟨displayName dp, (renderFiles (displayName dp) H files).2.2⟩ : RenderedSubdir) = _
    rw [h]
  · refine ⟨"\n            ",
      "\n            " ++ containerOpen divid ++ "\n              " ++
        String.intercalate "\n" (d.images.map imgAnchor) ++
        "\n            </div>\n            " ++ galleryScript divid yres ++ "\n            ", ?_⟩
    simp [dirDiv, String.append_assoc]
  · refine ⟨"\n            " ++ headingOf d.name ++ "\n            ",
      "\n              " ++ String.intercalate "\n" (d.images.map imgAnchor) ++
        "\n            </div>\n            " ++ galleryScript divid yres ++ "\n            ", ?_⟩
    simp [dirDiv, String.append_assoc]

/-- Witness for C8 (amended): a directory with a single non-decodable file and
the empty record `b`. -/
theorem empty_dir_section_witness :
    ((∀ f ∈ ([⟨"x.txt", false, 0, 0⟩] : List SrcFile), f.decodes = false) ∧
     (⟨"b", []⟩ : RenderedSubdir).images = []) ∧
    ((renderSubdir ["in", "b"] 480 [⟨"x.txt", false, 0, 0⟩]).result = ⟨displayName ["in", "b"], []⟩ ∧
     (∃ p q : String, dirDiv 480 1 ⟨"b", []⟩ = p ++ (headingOf (⟨"b", []⟩ : RenderedSubdir).name ++ q)) ∧
     (∃ p q : String, dirDiv 480 1 ⟨"b", []⟩ = p ++ (containerOpen 1 ++ q))) :=
  ⟨⟨by decide, rfl⟩,
   empty_dir_section ["in", "b"] 480 480 1 [⟨"x.txt", false, 0, 0⟩] ⟨"b", []⟩
     (by decide) rfl⟩
